import Mathlib

/-!
Verification of the page-harvesting engine of the repository
(web-article-summarizer): the sliding-window rate limiter, the slider-puzzle
solver search, the multi-stage challenge handler, and the harvest loop's
error handling and archive index persistence.

All definitions are shallow embeddings of the JavaScript source:
* the harvester script (rate-limiting block, per-target loop, archive index),
* the DataDome toy-project script (`isCaptchaVisible`, `solveSliderCaptcha`,
  `handleFullCaptchaProcess`).
Times are modelled as `Int` milliseconds (JavaScript `Date.now()`), image
distances as `ℚ` (JavaScript floats), and thrown JavaScript exceptions as
`Except` values.
-/

namespace WebHarvester

/-! ## RateLimiter

The harvester keeps a single process-wide array `recentRequestTimestamps`
(shared by every domain).  On each loop iteration it first shifts off leading
timestamps older than one hour, then, if the remaining length reaches
`config.maxUrlsPerHour`, sleeps until `recentRequestTimestamps[0] + 3600000`;
the timestamp of an admitted request is pushed only after the page's content
is verified (`recentRequestTimestamps.push(Date.now())`). -/

/-- One hour in milliseconds: the literal `3600000` of the source. -/
def hourMs : Int := 3600000

/-- The prune loop
`while (recentRequestTimestamps.length > 0 && recentRequestTimestamps[0] < now - 3600000) shift()`:
drop leading timestamps strictly older than one hour before `now`. -/
def pruneOld (now : Int) (l : List Int) : List Int :=
  l.dropWhile (fun t => decide (t < now - hourMs))

/-- The admission decision of one iteration of the rate-limiting block:
either proceed now, or sleep for the given number of milliseconds first. -/
inductive AdmissionDecision where
  | allow
  | wait (ms : Int)
deriving DecidableEq, Repr

/-- The decision computed by the rate-limiting block: after pruning, if the
remaining count reaches the cap, wait `recentRequestTimestamps[0] + 3600000 - now`
(the source skips the sleep when this is not positive, which is the same as
waiting a non-positive duration); otherwise proceed at once.  With an empty
list the `length >= cap` branch would read `undefined`, produce `NaN` and skip
the sleep, so the empty case is `allow`. -/
def rateDecision (l : List Int) (cap : Nat) (now : Int) : AdmissionDecision :=
  match pruneOld now l with
  | [] => .allow
  | t0 :: rest =>
      if cap ≤ (t0 :: rest).length then .wait (t0 + hourMs - now) else .allow

/-- `recentRequestTimestamps.push(p)`: the admitted request is recorded at the
time the push executes. -/
def recordRequest (l : List Int) (p : Int) : List Int := l ++ [p]

/-- One completed loop iteration, as it affects `recentRequestTimestamps`.
`success d c p` is an iteration for domain `d` whose rate check ran at time `c`
and which reached the push at time `p`; `failure c` is an iteration whose body
threw after the rate check at time `c` (no timestamp is recorded). -/
inductive RLEvent where
  | success (domain : String) (check rec : Int)
  | failure (check : Int)
deriving DecidableEq, Repr

/-- Effect of one iteration on the shared timestamp list. -/
def rlStep (l : List Int) : RLEvent → List Int
  | .success _ c p => recordRequest (pruneOld c l) p
  | .failure c => pruneOld c l

/-- The timestamps of all admissions that resulted in `allow` (a recorded
push), in order. -/
def rlPushes : List RLEvent → List Int
  | [] => []
  | .success _ _ p :: es => p :: rlPushes es
  | .failure _ :: es => rlPushes es

/-- The timestamps of the allowed admissions for one domain. -/
def rlPushesFor (d : String) : List RLEvent → List Int
  | [] => []
  | .success d' _ p :: es =>
      if d' = d then p :: rlPushesFor d es else rlPushesFor d es
  | .failure _ :: es => rlPushesFor d es

/-- A trace of loop iterations that the harvester can actually produce,
starting from time `t` with timestamp list `l`:
* each rate check runs strictly after the previous iteration finished (the
  loop body always awaits positive delays between a push and the next check);
* a push happens no earlier than its own rate check;
* when the pruned list has reached the cap, the iteration sleeps until
  `head + 3600000`, so its push time is at least that (when the computed wait
  is not positive the check time itself is already at least that). -/
inductive RLValid (cap : Nat) : Int → List Int → List RLEvent → Prop where
  | nil (t : Int) (l : List Int) : RLValid cap t l []
  | success (t : Int) (l : List Int) (d : String) (c p : Int) (es : List RLEvent)
      (hc : t < c) (hp : c ≤ p)
      (hw : cap ≤ (pruneOld c l).length →
            ∀ q ∈ (pruneOld c l).head?, q + hourMs ≤ p)
      (hrest : RLValid cap p (recordRequest (pruneOld c l) p) es) :
      RLValid cap t l (.success d c p :: es)
  | failure (t : Int) (l : List Int) (c : Int) (es : List RLEvent)
      (hc : t < c)
      (hrest : RLValid cap c (pruneOld c l) es) :
      RLValid cap t l (.failure c :: es)

/-- Membership of a timestamp in the rolling hour window `(t0, t0 + 3600000]`. -/
def inWindow (t0 q : Int) : Bool := decide (t0 < q) && decide (q ≤ t0 + hourMs)

/-- Number of timestamps of `l` inside the rolling window `(t0, t0 + 3600000]`. -/
def windowCount (t0 : Int) (l : List Int) : Nat := (l.filter (inWindow t0)).length

/-! ### Supporting lemmas for the rate-limiter invariant -/

lemma dropWhile_dropWhile {α : Type} (p q : α → Bool)
    (h : ∀ x, q x = true → p x = true) :
    ∀ l : List α, (l.dropWhile q).dropWhile p = l.dropWhile p := by
  intro l
  induction l with
  | nil => rfl
  | cons a l ih =>
    by_cases hq : q a = true
    · rw [List.dropWhile_cons_of_pos hq, List.dropWhile_cons_of_pos (h a hq), ih]
    · rw [List.dropWhile_cons_of_neg hq]

lemma pruneOld_pruneOld {c c' : Int} (h : c ≤ c') (l : List Int) :
    pruneOld c' (pruneOld c l) = pruneOld c' l := by
  simp only [pruneOld]
  apply dropWhile_dropWhile
  intro x hx
  simp only [decide_eq_true_eq] at hx ⊢
  omega

lemma pruneOld_length_le (now : Int) (l : List Int) :
    (pruneOld now l).length ≤ l.length :=
  (List.dropWhile_sublist _).length_le

lemma length_filter_le_dropWhile {α : Type} (p q : α → Bool)
    (h : ∀ x, p x = true → q x = false) (l : List α) :
    (l.filter p).length ≤ (l.dropWhile q).length := by
  conv_lhs => rw [← List.takeWhile_append_dropWhile (p := q) (l := l)]
  rw [List.filter_append, List.length_append]
  have h1 : (l.takeWhile q).filter p = [] := by
    rw [List.filter_eq_nil_iff]
    intro a ha hpa
    have h2 : q a = true := List.mem_takeWhile_imp ha
    rw [h a hpa] at h2
    exact Bool.false_ne_true h2
  rw [h1]
  simpa using List.length_filter_le p (l.dropWhile q)

/-- Any state reachable under the invariant keeps at most `cap` timestamps
above any threshold that is at most one hour before the current time. -/
lemma filter_gt_le_cap (cap : Nat) (t t0 : Int) (l : List Int)
    (hP3 : ∀ c, t < c → (pruneOld c l).length ≤ cap)
    (ht0 : t - hourMs ≤ t0) :
    (l.filter (fun q => decide (t0 < q))).length ≤ cap := by
  have h1 : (l.filter (fun q => decide (t0 < q))).length
      ≤ (pruneOld (t + 1) l).length := by
    simp only [pruneOld]
    apply length_filter_le_dropWhile
    intro x hx
    simp only [decide_eq_true_eq] at hx
    simp only [decide_eq_false_iff_not]
    omega
  exact le_trans h1 (hP3 (t + 1) (by omega))

/-- All timestamps recorded along a valid trace lie strictly after the
trace's starting time. -/
lemma rlPushes_gt {cap : Nat} {t : Int} {l : List Int} {es : List RLEvent}
    (hv : RLValid cap t l es) : ∀ q ∈ rlPushes es, t < q := by
  induction hv with
  | nil t l => intro q hq; simp [rlPushes] at hq
  | success t l d c p es hc hp hw hrest ih =>
    intro q hq
    simp only [rlPushes, List.mem_cons] at hq
    rcases hq with rfl | hq
    · omega
    · have := ih q hq; omega
  | failure t l c es hc hrest ih =>
    intro q hq
    simp only [rlPushes] at hq
    have := ih q hq; omega

/-- Main invariant: along any valid trace, the timestamps still tracked that
lie above `t0` together with all future recorded admissions inside the window
`(t0, t0 + 3600000]` number at most `cap`, for any window start at most one
hour before the current time. -/
lemma rl_main {cap : Nat} (hcap : 1 ≤ cap) {es : List RLEvent} {t : Int}
    {l : List Int} (hv : RLValid cap t l es) :
    (∀ c, t < c → (pruneOld c l).length ≤ cap) →
    ∀ t0 : Int, t - hourMs ≤ t0 →
      (l.filter (fun q => decide (t0 < q))).length
        + windowCount t0 (rlPushes es) ≤ cap := by
  induction hv with
  | nil t l =>
    intro hP3 t0 ht0
    simp only [rlPushes, windowCount, List.filter_nil, List.length_nil, Nat.add_zero]
    exact filter_gt_le_cap cap t t0 l hP3 ht0
  | success t l d c p es hc hp hw hrest ih =>
    intro hP3 t0 ht0
    have hS : (pruneOld c l).length ≤ cap := hP3 c hc
    have hP3' : ∀ c', p < c' →
        (pruneOld c' (recordRequest (pruneOld c l) p)).length ≤ cap := by
      intro c' hc'
      rcases Nat.lt_or_ge (pruneOld c l).length cap with hlt | hge
      · have hle := pruneOld_length_le c' (recordRequest (pruneOld c l) p)
        have hlen2 : (recordRequest (pruneOld c l) p).length
            = (pruneOld c l).length + 1 := by
          simp [recordRequest]
        omega
      · have heq : (pruneOld c l).length = cap := le_antisymm hS hge
        obtain ⟨s0, S1, hcons⟩ : ∃ s0 S1, pruneOld c l = s0 :: S1 := by
          cases hS0 : pruneOld c l with
          | nil => rw [hS0] at heq; simp at heq; omega
          | cons a b => exact ⟨a, b, rfl⟩
        have hs0 : s0 + hourMs ≤ p := by
          have hww := hw (by omega)
          exact hww s0 (by rw [hcons]; rfl)
        have hdrop : pruneOld c' (recordRequest (pruneOld c l) p)
            = pruneOld c' (S1 ++ [p]) := by
          rw [hcons]
          show pruneOld c' (s0 :: (S1 ++ [p])) = pruneOld c' (S1 ++ [p])
          simp only [pruneOld]
          apply List.dropWhile_cons_of_pos
          simp only [decide_eq_true_eq]
          omega
        rw [hdrop]
        have hlen : S1.length + 1 = cap := by
          have := congrArg List.length hcons
          simp only [List.length_cons] at this
          omega
        have := pruneOld_length_le c' (S1 ++ [p])
        simp only [List.length_append, List.length_cons, List.length_nil] at this
        omega
    rcases le_or_lt (p - hourMs) t0 with hge | hlt
    · have ihh := ih hP3' t0 (by omega)
      have hfl : (l.filter (fun q => decide (t0 < q))).length
          = ((pruneOld c l).filter (fun q => decide (t0 < q))).length := by
        conv_lhs => rw [← List.takeWhile_append_dropWhile
          (p := fun q => decide (q < c - hourMs)) (l := l)]
        rw [List.filter_append, List.length_append]
        have hnil : (l.takeWhile (fun q => decide (q < c - hourMs))).filter
            (fun q => decide (t0 < q)) = [] := by
          rw [List.filter_eq_nil_iff]
          intro a ha hpa
          have h2 := List.mem_takeWhile_imp ha
          simp only [decide_eq_true_eq] at h2 hpa
          omega
        rw [hnil]
        simp [pruneOld]
      have hl' : ((recordRequest (pruneOld c l) p).filter
            (fun q => decide (t0 < q))).length
          = ((pruneOld c l).filter (fun q => decide (t0 < q))).length
            + (if t0 < p then 1 else 0) := by
        simp only [recordRequest, List.filter_append, List.length_append]
        by_cases h : t0 < p <;> simp [h]
      have hwin : windowCount t0 (rlPushes (RLEvent.success d c p :: es))
          = (if t0 < p then 1 else 0) + windowCount t0 (rlPushes es) := by
        simp only [rlPushes, windowCount, List.filter_cons]
        have hin : inWindow t0 p = decide (t0 < p) := by
          simp only [inWindow]
          have : decide (p ≤ t0 + hourMs) = true := by
            simp only [decide_eq_true_eq]; omega
          rw [this, Bool.and_true]
        rw [hin]
        by_cases h : t0 < p <;> simp [h, Nat.add_comm]
      rw [hfl, hwin]
      rw [hl'] at ihh
      omega
    · have hner : ∀ q ∈ rlPushes es, p < q := rlPushes_gt hrest
      have hwc : windowCount t0 (rlPushes (RLEvent.success d c p :: es)) = 0 := by
        simp only [windowCount, List.length_eq_zero, List.filter_eq_nil_iff]
        intro q hq
        simp only [rlPushes, List.mem_cons] at hq
        simp only [inWindow, Bool.and_eq_true, decide_eq_true_eq, not_and]
        rcases hq with rfl | hq
        · intro _; omega
        · have := hner q hq; intro _; omega
      rw [hwc, Nat.add_zero]
      exact filter_gt_le_cap cap t t0 l hP3 ht0
  | failure t l c es hc hrest ih =>
    intro hP3 t0 ht0
    have hP3' : ∀ c', c < c' → (pruneOld c' (pruneOld c l)).length ≤ cap := by
      intro c' hc'
      rw [pruneOld_pruneOld (le_of_lt hc')]
      exact hP3 c' (lt_trans hc hc')
    have hpush : rlPushes (RLEvent.failure c :: es) = rlPushes es := rfl
    rcases le_or_lt (c - hourMs) t0 with hge | hlt
    · have ihh := ih hP3' t0 (by omega)
      have hfl : (l.filter (fun q => decide (t0 < q))).length
          = ((pruneOld c l).filter (fun q => decide (t0 < q))).length := by
        conv_lhs => rw [← List.takeWhile_append_dropWhile
          (p := fun q => decide (q < c - hourMs)) (l := l)]
        rw [List.filter_append, List.length_append]
        have hnil : (l.takeWhile (fun q => decide (q < c - hourMs))).filter
            (fun q => decide (t0 < q)) = [] := by
          rw [List.filter_eq_nil_iff]
          intro a ha hpa
          have h2 := List.mem_takeWhile_imp ha
          simp only [decide_eq_true_eq] at h2 hpa
          omega
        rw [hnil]
        simp [pruneOld]
      rw [hpush, hfl]
      exact ihh
    · have hner : ∀ q ∈ rlPushes es, c < q := rlPushes_gt hrest
      have hwc : windowCount t0 (rlPushes es) = 0 := by
        simp only [windowCount, List.length_eq_zero, List.filter_eq_nil_iff]
        intro q hq
        simp only [inWindow, Bool.and_eq_true, decide_eq_true_eq, not_and]
        have := hner q hq; intro _; omega
      rw [hpush, hwc, Nat.add_zero]
      exact filter_gt_le_cap cap t t0 l hP3 ht0

/-- The admissions of one domain are a sublist of all admissions (the code
keeps one shared timestamp list for every domain). -/
lemma rlPushesFor_sublist (d : String) :
    ∀ es : List RLEvent, (rlPushesFor d es).Sublist (rlPushes es) := by
  intro es
  induction es with
  | nil => exact List.Sublist.refl _
  | cons e es ih =>
    cases e with
    | success d' c p =>
      simp only [rlPushesFor, rlPushes]
      by_cases h : d' = d
      · rw [if_pos h]; exact List.Sublist.cons₂ p ih
      · rw [if_neg h]; exact List.Sublist.cons p ih
    | failure c =>
      simpa only [rlPushesFor, rlPushes] using ih

/-- C1: for every valid sequence of admission calls and every domain, the
number of admissions that resulted in `allow` (a recorded timestamp) for that
domain inside any rolling one-hour window `(t0, t0 + 3600000]` never exceeds
the configured hourly cap `maxUrlsPerHour`.  The bound holds at the end of the
trace and hence immediately after each admission decision (every prefix of a
valid trace is itself a valid trace with fewer recorded admissions). -/
theorem C1_rate_limiter_window_bound (cap : Nat) (hcap : 1 ≤ cap) (start : Int)
    (es : List RLEvent) (hv : RLValid cap start [] es) (d : String) (t0 : Int) :
    windowCount t0 (rlPushesFor d es) ≤ cap := by
  have hsub : windowCount t0 (rlPushesFor d es) ≤ windowCount t0 (rlPushes es) :=
    ((rlPushesFor_sublist d es).filter _).length_le
  rcases le_or_lt (start - hourMs) t0 with hge | hlt
  · have hmain := rl_main hcap hv
      (by intro c hc; simp [pruneOld]) t0 hge
    simp only [List.filter_nil, List.length_nil, Nat.zero_add] at hmain
    omega
  · have hner : ∀ q ∈ rlPushes es, start < q := rlPushes_gt hv
    have hwc : windowCount t0 (rlPushes es) = 0 := by
      simp only [windowCount, List.length_eq_zero, List.filter_eq_nil_iff]
      intro q hq
      simp only [inWindow, Bool.and_eq_true, decide_eq_true_eq, not_and]
      have := hner q hq; intro _; omega
    omega

/-- Witness for C1 at a concrete one-admission trace with cap 1. -/
theorem C1_witness :
    windowCount 0 (rlPushesFor "a" [RLEvent.success "a" 1 2]) ≤ 1 :=
  C1_rate_limiter_window_bound 1 (by decide) 0
    [RLEvent.success "a" 1 2]
    (RLValid.success 0 [] "a" 1 2 [] (by decide) (by decide)
      (fun h => absurd h (by decide)) (RLValid.nil 2 _)) "a" 0

/-- A surviving head of the pruned list is at most one hour old. -/
lemma pruneOld_head (now : Int) :
    ∀ (l : List Int) (a : Int) (r : List Int),
      pruneOld now l = a :: r → now - hourMs ≤ a := by
  intro l
  induction l with
  | nil => intro a r h; simp [pruneOld] at h
  | cons b l ih =>
    intro a r h
    unfold pruneOld at h
    rw [List.dropWhile_cons] at h
    split at h
    · exact ih a r h
    · next hb =>
      obtain ⟨rfl, -⟩ := List.cons.inj h
      simp only [decide_eq_true_eq] at hb
      omega

/-- C2 (amended): the admission procedure operates on the single shared
timestamp list.  On each call the list is first pruned of timestamps older
than one hour; if the remaining count reaches the cap the decision is a wait
instruction of exactly `oldest + 3600000 - now` milliseconds (a nonnegative
duration); otherwise the call is allowed and the timestamp of the admitted
request is appended.  In particular, with cap 2 and three back-to-back calls
(the two earlier timestamps within the hour), the third call yields
`wait (first + 3600000 - now)`, not `allow`. -/
theorem C2_admission_procedure (l : List Int) (cap : Nat) (now : Int) :
    (∀ a r, pruneOld now l = a :: r → now - hourMs ≤ a) ∧
    (∀ a r, pruneOld now l = a :: r → cap ≤ (a :: r).length →
        rateDecision l cap now = .wait (a + hourMs - now) ∧
        0 ≤ a + hourMs - now) ∧
    ((pruneOld now l).length < cap →
        rateDecision l cap now = .allow ∧
        recordRequest (pruneOld now l) now = pruneOld now l ++ [now]) ∧
    (∀ t1 t2 : Int, now - hourMs ≤ t1 →
        rateDecision [t1, t2] 2 now = .wait (t1 + hourMs - now) ∧
        rateDecision [t1, t2] 2 now ≠ .allow) := by
  refine ⟨pruneOld_head now l, ?_, ?_, ?_⟩
  · intro a r h hcap
    constructor
    · unfold rateDecision
      split
      · next heq => rw [h] at heq; exact absurd heq (List.cons_ne_nil a r)
      · next t0 rest heq =>
        rw [h] at heq
        obtain ⟨rfl, rfl⟩ := List.cons.inj heq
        rw [if_pos hcap]
    · have := pruneOld_head now l a r h
      omega
  · intro hlt
    refine ⟨?_, rfl⟩
    unfold rateDecision
    split
    · rfl
    · next t0 rest heq =>
      rw [if_neg]
      rw [heq] at hlt
      omega
  · intro t1 t2 ht1
    have hpr : pruneOld now [t1, t2] = [t1, t2] := by
      simp only [pruneOld]
      apply List.dropWhile_cons_of_neg
      simp only [decide_eq_true_eq]
      omega
    constructor
    · unfold rateDecision
      split
      · next heq => rw [hpr] at heq; exact absurd heq (by simp)
      · next t0 rest heq =>
        rw [hpr] at heq
        obtain ⟨rfl, rfl⟩ := List.cons.inj heq
        rw [if_pos (by simp)]
    · unfold rateDecision
      split
      · next heq => rw [hpr] at heq; exact absurd heq (by simp)
      · next t0 rest heq =>
        rw [hpr] at heq
        obtain ⟨rfl, rfl⟩ := List.cons.inj heq
        rw [if_pos (by simp)]
        simp

/-- Witness for C2: the third back-to-back call at time 10 after admissions
at times 0 and 1 yields a wait of `0 + 3600000 - 10`, not `allow`. -/
theorem C2_witness :
    rateDecision [0, 1] 2 10 = .wait (0 + hourMs - 10) ∧
    rateDecision [0, 1] 2 10 ≠ .allow :=
  (C2_admission_procedure [0, 1] 2 10).2.2.2 0 1 (by decide)

/-- C2 counterexample to the claim's per-domain reading: the timestamp list
is process-wide, not keyed by domain.  After an allowed admission for domain
"siteA" at time 0 and one for domain "siteB" at time 1, the third call (for
"siteA", at time 2, cap 2) is told to wait even though only one earlier
admission belongs to "siteA" (its own count, 1, is below the cap, so the
claim says this call is allowed). -/
theorem C2_counterexample :
    rateDecision (rlStep (rlStep [] (RLEvent.success "siteA" 0 0))
        (RLEvent.success "siteB" 1 1)) 2 2
      = AdmissionDecision.wait (0 + hourMs - 2) ∧
    rateDecision (rlStep (rlStep [] (RLEvent.success "siteA" 0 0))
        (RLEvent.success "siteB" 1 1)) 2 2 ≠ AdmissionDecision.allow ∧
    (rlPushesFor "siteA"
        [RLEvent.success "siteA" 0 0, RLEvent.success "siteB" 1 1]).length = 1 := by
  decide

/-! ## PuzzleSolver

`solveSliderCaptcha` performs a brute-force template-matching search
(part_006, lines 59-73):

    let bestMatch = { x: 0, y: 0, distance: Infinity };
    for (let x = 0; x < background.bitmap.width - piece.bitmap.width; x++) {
      for (let y = 0; y < background.bitmap.height - piece.bitmap.height; y++) {
        const distance = Jimp.distance(background.clone().crop(x, y, w, h), piece);
        if (distance < bestMatch.distance) bestMatch = { x, y, distance };
      }
    }
    const targetX = bestMatch.x;

The per-offset score `Jimp.distance(crop, piece)` is abstracted as a function
`d : Nat × Nat → ℚ` of the offset (the images are fixed inside one search);
`Infinity` is `Option.none`. -/

/-- The running best match of the search loop; `distance = none` is the
initial `Infinity`. -/
structure BestMatch where
  x : Nat
  y : Nat
  distance : Option ℚ
deriving DecidableEq, Repr

/-- `bestMatch = { x: 0, y: 0, distance: Infinity }`. -/
def initialBest : BestMatch := ⟨0, 0, none⟩

/-- The comparison `distance < bestMatch.distance`, where any finite value is
below `Infinity`. -/
def beats (q : ℚ) : Option ℚ → Bool
  | none => true
  | some b => decide (q < b)

/-- The loop body: update the best match when the new distance is strictly
smaller. -/
def stepBest (d : Nat × Nat → ℚ) (best : BestMatch) (xy : Nat × Nat) : BestMatch :=
  if beats (d xy) best.distance then ⟨xy.1, xy.2, some (d xy)⟩ else best

/-- The offsets visited by the two nested loops, in scan order: `x` from `0`
to `width - pieceWidth` exclusive (outer), `y` from `0` to
`height - pieceHeight` exclusive (inner).  When the piece is at least as wide
or tall as the background the corresponding range is empty (JavaScript's
negative bound never runs the loop; truncated subtraction gives the same). -/
def scanOffsets (w h pw ph : Nat) : List (Nat × Nat) :=
  (List.range (w - pw)).flatMap (fun x => (List.range (h - ph)).map (fun y => (x, y)))

/-- The whole search: fold the update over the scanned offsets.  `w, h` are
the background's dimensions and `pw, ph` the piece's. -/
def solveBest (d : Nat × Nat → ℚ) (w h pw ph : Nat) : BestMatch :=
  (scanOffsets w h pw ph).foldl (stepBest d) initialBest

/-- `const targetX = bestMatch.x`: the horizontal drag distance. -/
def targetX (d : Nat × Nat → ℚ) (w h pw ph : Nat) : Nat := (solveBest d w h pw ph).x

/-- Once a score fails to beat the running best, it also fails to beat any
later best (the running minimum never increases). -/
lemma foldBest_preserve (d : Nat × Nat → ℚ) :
    ∀ (l : List (Nat × Nat)) (best : BestMatch) (q : ℚ),
      beats q best.distance = false →
      beats q ((l.foldl (stepBest d) best)).distance = false := by
  intro l
  induction l with
  | nil => intro best q hq; simpa using hq
  | cons a l ih =>
    intro best q hq
    rw [List.foldl_cons]
    apply ih
    unfold stepBest
    split
    · next hb =>
      cases hbd : best.distance with
      | none => rw [hbd] at hq; simp [beats] at hq
      | some m =>
        rw [hbd] at hq hb
        show beats q (some (d a)) = false
        simp only [beats, decide_eq_false_iff_not] at hq ⊢
        simp only [beats, decide_eq_true_eq] at hb
        intro hlt; exact hq (lt_trans hlt hb)
    · exact hq

/-- The final best distance is at most every scanned score. -/
lemma foldBest_min (d : Nat × Nat → ℚ) :
    ∀ (l : List (Nat × Nat)) (best : BestMatch) (xy : Nat × Nat), xy ∈ l →
      beats (d xy) ((l.foldl (stepBest d) best)).distance = false := by
  intro l
  induction l with
  | nil => intro best xy hm; simp at hm
  | cons a l ih =>
    intro best xy hm
    rw [List.foldl_cons]
    rcases List.mem_cons.mp hm with rfl | hm'
    · apply foldBest_preserve
      unfold stepBest
      split
      · show beats (d xy) (some (d xy)) = false
        simp [beats]
      · next hb => exact Bool.eq_false_iff.mpr hb
    · exact ih _ xy hm'

/-- The fold either leaves the accumulator untouched (nothing beat it) or
returns the first-found strict minimum: the winner beats the accumulator and
every offset strictly before it in scan order has a strictly larger score. -/
lemma foldBest_cases (d : Nat × Nat → ℚ) :
    ∀ (l : List (Nat × Nat)) (best : BestMatch),
      (l.foldl (stepBest d) best = best ∧
        ∀ xy ∈ l, beats (d xy) best.distance = false) ∨
      (∃ l1 xy l2, l = l1 ++ xy :: l2 ∧
        l.foldl (stepBest d) best = ⟨xy.1, xy.2, some (d xy)⟩ ∧
        beats (d xy) best.distance = true ∧
        ∀ ab ∈ l1, d xy < d ab) := by
  intro l
  induction l with
  | nil => intro best; left; exact ⟨rfl, by simp⟩
  | cons a l ih =>
    intro best
    by_cases hb : beats (d a) best.distance = true
    · have hstep : stepBest d best a = ⟨a.1, a.2, some (d a)⟩ := by
        unfold stepBest; rw [if_pos hb]
      rcases ih (stepBest d best a) with ⟨heq, hall⟩ | ⟨l1, xy, l2, hsplit, hfold, hbeat, hl1⟩
      · right
        refine ⟨[], a, l, by simp, ?_, hb, by simp⟩
        rw [List.foldl_cons, heq, hstep]
      · right
        refine ⟨a :: l1, xy, l2, by rw [hsplit]; rfl, ?_, ?_, ?_⟩
        · rw [List.foldl_cons, hfold]
        · rw [hstep] at hbeat
          simp only [beats, decide_eq_true_eq] at hbeat
          cases hbd : best.distance with
          | none => simp [beats]
          | some m =>
            rw [hbd] at hb
            simp only [beats, decide_eq_true_eq] at hb ⊢
            exact lt_trans hbeat hb
        · intro ab hab
          rcases List.mem_cons.mp hab with rfl | hab'
          · rw [hstep] at hbeat
            simpa only [beats, decide_eq_true_eq] using hbeat
          · exact hl1 ab hab'
    · have hstep : stepBest d best a = best := by
        unfold stepBest; rw [if_neg hb]
      rcases ih best with ⟨heq, hall⟩ | ⟨l1, xy, l2, hsplit, hfold, hbeat, hl1⟩
      · left
        constructor
        · rw [List.foldl_cons, hstep, heq]
        · intro xy hxy
          rcases List.mem_cons.mp hxy with rfl | hm'
          · exact Bool.eq_false_iff.mpr hb
          · exact hall xy hm'
      · right
        refine ⟨a :: l1, xy, l2, by rw [hsplit]; rfl, ?_, hbeat, ?_⟩
        · rw [List.foldl_cons, hstep, hfold]
        · intro ab hab
          rcases List.mem_cons.mp hab with rfl | hab'
          · cases hbd : best.distance with
            | none => rw [hbd] at hb; simp [beats] at hb
            | some m =>
              rw [hbd] at hb hbeat
              simp only [beats, decide_eq_true_eq] at hbeat hb
              exact lt_of_lt_of_le hbeat (le_of_not_lt hb)
          · exact hl1 ab hab'

/-- The scanned offsets are exactly those with `x < w - pw` and `y < h - ph`
(strict bounds: the loops use `<`, so the last valid offsets `x = w - pw` and
`y = h - ph` are never examined). -/
lemma mem_scanOffsets (w h pw ph x y : Nat) :
    (x, y) ∈ scanOffsets w h pw ph ↔ x < w - pw ∧ y < h - ph := by
  simp only [scanOffsets, List.mem_flatMap, List.mem_map, List.mem_range]
  constructor
  · rintro ⟨a, ha, b, hb, heq⟩
    obtain ⟨rfl, rfl⟩ := Prod.mk.inj heq
    exact ⟨ha, hb⟩
  · rintro ⟨hx, hy⟩
    exact ⟨x, hx, y, hy, rfl⟩

/-- C3 (amended): the search examines exactly the offsets `(x, y)` with
`0 ≤ x < W - pw` and `0 ≤ y < H - ph` — one short of the full valid range in
each dimension, because the loop bounds are strict.  Over those examined
offsets it returns the first-found minimum in scan order (every earlier
offset scores strictly higher, every offset scores at least the returned
distance), and the horizontal drag distance is the `x` component of the
returned offset. -/
theorem C3_solver_search (d : Nat × Nat → ℚ) (w h pw ph : Nat)
    (hne : scanOffsets w h pw ph ≠ []) :
    (∀ x y, (x, y) ∈ scanOffsets w h pw ph ↔ x < w - pw ∧ y < h - ph) ∧
    (∃ l1 l2,
      scanOffsets w h pw ph
        = l1 ++ ((solveBest d w h pw ph).x, (solveBest d w h pw ph).y) :: l2 ∧
      (solveBest d w h pw ph).distance
        = some (d ((solveBest d w h pw ph).x, (solveBest d w h pw ph).y)) ∧
      (∀ ab ∈ l1, d ((solveBest d w h pw ph).x, (solveBest d w h pw ph).y) < d ab)) ∧
    (∀ ab ∈ scanOffsets w h pw ph, ∀ q,
      (solveBest d w h pw ph).distance = some q → q ≤ d ab) ∧
    targetX d w h pw ph = (solveBest d w h pw ph).x := by
  refine ⟨fun x y => mem_scanOffsets w h pw ph x y, ?_, ?_, rfl⟩
  · rcases foldBest_cases d (scanOffsets w h pw ph) initialBest with
      ⟨heq, hall⟩ | ⟨l1, xy, l2, hsplit, hfold, hbeat, hl1⟩
    · obtain ⟨xy, hm⟩ := List.exists_mem_of_ne_nil _ hne
      have := hall xy hm
      simp [initialBest, beats] at this
    · have hfold' : solveBest d w h pw ph = ⟨xy.1, xy.2, some (d xy)⟩ := hfold
      refine ⟨l1, l2, ?_, ?_, ?_⟩
      · rw [hfold']
        exact hsplit
      · rw [hfold']
      · intro ab hab
        rw [hfold']
        exact hl1 ab hab
  · intro ab hab q hq
    have hmin := foldBest_min d (scanOffsets w h pw ph) initialBest ab hab
    have : beats (d ab) (some q) = false := by
      rw [← hq]; exact hmin
    simp only [beats, decide_eq_false_iff_not] at this
    exact le_of_not_lt this

/-- Constant distance used by the C3 witness. -/
def dZero : Nat × Nat → ℚ := fun _ => 0

/-- Witness for C3 at a 2x2 background and 1x1 piece. -/
theorem C3_witness :
    scanOffsets 2 2 1 1 ≠ [] ∧
    ((∀ x y, (x, y) ∈ scanOffsets 2 2 1 1 ↔ x < 2 - 1 ∧ y < 2 - 1) ∧
    (∃ l1 l2,
      scanOffsets 2 2 1 1
        = l1 ++ ((solveBest dZero 2 2 1 1).x, (solveBest dZero 2 2 1 1).y) :: l2 ∧
      (solveBest dZero 2 2 1 1).distance
        = some (dZero ((solveBest dZero 2 2 1 1).x, (solveBest dZero 2 2 1 1).y)) ∧
      (∀ ab ∈ l1, dZero ((solveBest dZero 2 2 1 1).x, (solveBest dZero 2 2 1 1).y) < dZero ab)) ∧
    (∀ ab ∈ scanOffsets 2 2 1 1, ∀ q,
      (solveBest dZero 2 2 1 1).distance = some q → q ≤ dZero ab) ∧
    targetX dZero 2 2 1 1 = (solveBest dZero 2 2 1 1).x) :=
  ⟨by decide, C3_solver_search dZero 2 2 1 1 (by decide)⟩

/-- Scores for the C3 counterexample: the unexamined offset `(1, 0)` scores
strictly less than every examined offset. -/
def dCex : Nat × Nat → ℚ := fun xy => if xy.1 = 0 then 1 else 0

/-- C3 counterexample: with a 2x2 background and a 1x1 piece, `(1, 0)` is a
valid offset (the piece fits: `1 + 1 ≤ 2`, `0 + 1 ≤ 2`) with a strictly
smaller score than the offset the search returns, yet it is never examined —
so the search does not examine every valid offset and the returned offset
does not achieve the minimum score over the valid offsets. -/
theorem C3_counterexample :
    (solveBest dCex 2 2 1 1).x = 0 ∧ (solveBest dCex 2 2 1 1).y = 0 ∧
    (solveBest dCex 2 2 1 1).distance = some 1 ∧
    1 + 1 ≤ 2 ∧ 0 + 1 ≤ 2 ∧
    dCex (1, 0) < dCex ((solveBest dCex 2 2 1 1).x, (solveBest dCex 2 2 1 1).y) ∧
    (1, 0) ∉ scanOffsets 2 2 1 1 := by
  decide

/-! ## ChallengeStateMachine

`isCaptchaVisible`, `solveSliderCaptcha` and `handleFullCaptchaProcess`
(part_006).  One invocation is driven by the page's observable behaviour,
captured as a `PageEnv`: which lookups succeed, which awaited operations
throw, and whether the challenge container is still visible after the drag.
Thrown JavaScript exceptions are `Except.error`; the `try/catch` wrappers are
the `match` that maps any error to `false`. -/

/-- The observable behaviour of the page during one invocation. -/
structure PageEnv where
  /-- `page.frame({ name: 'datadome-captcha-popup' })` found in
  `handleFullCaptchaProcess` (line 128). -/
  processFrame : Bool
  /-- `captchaFrame.locator(sel).first().count()` per selector: `none` means
  the lookup threw (caught, treated as no match), `some n` the count. -/
  counts : String → Option Nat
  /-- whether `button.click({ timeout: 5000 })` succeeds for a selector
  (`false` = the click throws and the loop moves to the next selector). -/
  clicks : String → Bool
  /-- `page.waitForTimeout(3000)` after a successful confirmation click
  completes normally (`false` = it throws, reaching the outer catch). -/
  settleOk : Bool
  /-- `page.frame(...)` found in `solveSliderCaptcha` (line 27). -/
  solveFrame : Bool
  /-- `captchaFrame.$('#captcha-container')` non-null (line 33). -/
  container : Bool
  /-- screenshot, crops, reads, writes and normalization (lines 40-57)
  all succeed (`false` = one of them throws). -/
  prepOk : Bool
  /-- `captchaFrame.$('.captcha_slider_knob')` non-null (line 76). -/
  sliderHandle : Bool
  /-- bounding box, drag replay and `waitForNavigation` (lines 82-107)
  all succeed (`false` = one of them throws, e.g. a navigation timeout). -/
  dragNavOk : Bool
  /-- after the drag: the captcha frame still exists (line 12). -/
  frameAfter : Bool
  /-- after the drag: `#captcha-container` becomes visible within the 5 s
  timeout (line 15). -/
  containerAfter : Bool

/-- `isCaptchaVisible` evaluated after the drag: true only if the frame still
exists and the container is visible in time; every failure path returns
`false` (lines 10-22). -/
def isCaptchaVisibleAfter (e : PageEnv) : Bool := e.frameAfter && e.containerAfter

/-- The JavaScript exceptions distinguished by the model. -/
inductive JsError where
  | geometry
  | dragNav
  | settle
deriving DecidableEq, Repr

/-- The body of `solveSliderCaptcha` (lines 26-117), before its `catch`:
early `return false` for a missing frame, container or slider handle;
a thrown exception for a failed screenshot/crop step or a failed
drag/navigation; otherwise the verification result. -/
def solveSliderBody (e : PageEnv) : Except JsError Bool :=
  if !e.solveFrame then .ok false
  else if !e.container then .ok false
  else if !e.prepOk then .error .geometry
  else if !e.sliderHandle then .ok false
  else if !e.dragNavOk then .error .dragNav
  else .ok (!isCaptchaVisibleAfter e)

/-- `solveSliderCaptcha` with its `catch` (lines 119-122): any thrown
exception becomes `false`. -/
def solveSliderCaptcha (e : PageEnv) : Bool :=
  match solveSliderBody e with
  | .ok b => b
  | .error _ => false

/-- The ordered candidate confirmation selectors (lines 137-141). -/
def confirmButtonSelectors : List String :=
  ["button:has-text(\"Confirm\")", "button:has-text(\"Verify\")", "#btn-interstitial"]

/-- A selector matches when its `count()` succeeds and is positive. -/
def matchesSel (e : PageEnv) (s : String) : Bool :=
  match e.counts s with
  | none => false
  | some n => decide (0 < n)

/-- The instrumented actions of one invocation. -/
inductive CAct where
  | countQuery (s : String)
  | clickTry (s : String)
  | clickDone (s : String)
  | solverCall
deriving DecidableEq, Repr

/-- The confirmation loop (lines 143-157): try each selector in order; on a
positive count attempt the click; a successful click sets `confirmed` and
breaks; a throwing click (or a throwing count) is caught and the loop moves
on.  Returns `confirmed` and the list of performed actions. -/
def confirmLoop (e : PageEnv) : List String → Bool × List CAct
  | [] => (false, [])
  | s :: rest =>
    match e.counts s with
    | none =>
        let r := confirmLoop e rest
        (r.1, .countQuery s :: r.2)
    | some n =>
        if 0 < n then
          if e.clicks s then (true, [.countQuery s, .clickTry s, .clickDone s])
          else
            let r := confirmLoop e rest
            (r.1, .countQuery s :: .clickTry s :: r.2)
        else
          let r := confirmLoop e rest
          (r.1, .countQuery s :: r.2)

/-- The body of `handleFullCaptchaProcess` (lines 127-167): missing frame
returns `false`; then the confirmation loop; after a confirmed click the
settle wait (which can throw, reaching the catch of lines 169-172); finally
one call to `solveSliderCaptcha` (which itself never throws). -/
def handleBody (e : PageEnv) : Except JsError Bool :=
  if !e.processFrame then .ok false
  else if (confirmLoop e confirmButtonSelectors).1 && !e.settleOk then .error .settle
  else .ok (solveSliderCaptcha e)

/-- `handleFullCaptchaProcess` with its `catch`: any thrown exception becomes
`false`. -/
def handleFullCaptchaProcess (e : PageEnv) : Bool :=
  match handleBody e with
  | .ok b => b
  | .error _ => false

/-- The actions performed by one invocation of `handleFullCaptchaProcess`. -/
def processActs (e : PageEnv) : List CAct :=
  if !e.processFrame then []
  else
    let c := confirmLoop e confirmButtonSelectors
    if c.1 && !e.settleOk then c.2
    else c.2 ++ [.solverCall]

/-- The spec-level challenge states. -/
inductive ChallengeState where
  | noChallenge
  | detected
  | awaitingConfirmation
  | awaitingPuzzle
  | solved
  | failed
deriving DecidableEq, Repr

/-- The states visited by one invocation, in order: `detected` on entry (the
handler is invoked only when the challenge was detected); the confirmation
stage when a confirmation control was clicked; the puzzle stage; then the
terminal state given by the boolean result. -/
def challengeTrace (e : PageEnv) : List ChallengeState :=
  if !e.processFrame then [.detected, .failed]
  else
    let c := confirmLoop e confirmButtonSelectors
    if c.1 && !e.settleOk then [.detected, .awaitingConfirmation, .failed]
    else
      .detected :: ((if c.1 then [.awaitingConfirmation] else []) ++
        [.awaitingPuzzle, if solveSliderCaptcha e then .solved else .failed])

/-- Predicate for click attempts among the instrumented actions. -/
def isClickTry : CAct → Bool
  | .clickTry _ => true
  | _ => false

/-- Predicate for successful clicks among the instrumented actions. -/
def isClickDone : CAct → Bool
  | .clickDone _ => true
  | _ => false

/-- The confirmation loop never invokes the solver. -/
lemma confirmLoop_no_solver (e : PageEnv) :
    ∀ sels : List String, CAct.solverCall ∉ (confirmLoop e sels).2 := by
  intro sels
  induction sels with
  | nil => simp [confirmLoop]
  | cons s rest ih =>
    simp only [confirmLoop]
    cases hc : e.counts s with
    | none => simp [ih]
    | some n =>
      by_cases hn : 0 < n
      · simp only [if_pos hn]
        by_cases hcl : e.clicks s
        · simp [if_pos hcl]
        · simp [if_neg hcl, ih]
      · simp [if_neg hn, ih]

/-- At most one successful confirmation click per invocation (the loop breaks
after the first click that does not throw). -/
lemma confirmLoop_clickDone_le_one (e : PageEnv) :
    ∀ sels : List String, ((confirmLoop e sels).2.countP isClickDone) ≤ 1 := by
  intro sels
  induction sels with
  | nil => simp [confirmLoop]
  | cons s rest ih =>
    simp only [confirmLoop]
    cases hc : e.counts s with
    | none => simpa [List.countP_cons, isClickDone] using ih
    | some n =>
      by_cases hn : 0 < n
      · simp only [if_pos hn]
        by_cases hcl : e.clicks s
        · simp [if_pos hcl, List.countP_cons, isClickDone]
        · simp only [if_neg hcl]
          simpa [List.countP_cons, isClickDone] using ih
      · simp only [if_neg hn]
        simpa [List.countP_cons, isClickDone] using ih

/-- At most one click attempt per candidate selector. -/
lemma confirmLoop_clickTry_le (e : PageEnv) :
    ∀ sels : List String, ((confirmLoop e sels).2.countP isClickTry) ≤ sels.length := by
  intro sels
  induction sels with
  | nil => simp [confirmLoop]
  | cons s rest ih =>
    simp only [confirmLoop, List.length_cons]
    cases hc : e.counts s with
    | none =>
      simp [List.countP_cons, isClickTry]
      omega
    | some n =>
      by_cases hn : 0 < n
      · simp only [if_pos hn]
        by_cases hcl : e.clicks s
        · simp [if_pos hcl, List.countP_cons, isClickTry]
        · simp only [if_neg hcl]
          simp [List.countP_cons, isClickTry]
          omega
      · simp only [if_neg hn]
        simp [List.countP_cons, isClickTry]
        omega

/-- C6: one invocation of the challenge handler visits at most four
spec-level states, always ends in a terminal state (`solved` or `failed`),
calls the puzzle solver at most once, performs at most one successful
confirmation click, and attempts at most one click per candidate selector —
so it never loops. -/
theorem C6_state_machine_bounded (e : PageEnv) :
    (challengeTrace e).length ≤ 4 ∧
    ((challengeTrace e).getLast? = some .solved ∨
      (challengeTrace e).getLast? = some .failed) ∧
    (processActs e).count CAct.solverCall ≤ 1 ∧
    (processActs e).countP isClickDone ≤ 1 ∧
    (processActs e).countP isClickTry ≤ confirmButtonSelectors.length := by
  have hns := confirmLoop_no_solver e confirmButtonSelectors
  have h0 : (confirmLoop e confirmButtonSelectors).2.count CAct.solverCall = 0 :=
    List.count_eq_zero.mpr hns
  have hcd := confirmLoop_clickDone_le_one e confirmButtonSelectors
  have hct := confirmLoop_clickTry_le e confirmButtonSelectors
  have hA : (processActs e).count CAct.solverCall ≤ 1 := by
    unfold processActs
    cases hf : e.processFrame with
    | false => simp
    | true =>
      by_cases hcs : ((confirmLoop e confirmButtonSelectors).1 && !e.settleOk) = true
      · simp [hcs, h0]
      · simp [hcs, List.count_append, h0]
  have hB : (processActs e).countP isClickDone ≤ 1 := by
    unfold processActs
    cases hf : e.processFrame with
    | false => simp
    | true =>
      by_cases hcs : ((confirmLoop e confirmButtonSelectors).1 && !e.settleOk) = true
      · simpa [hcs] using hcd
      · simp [hcs, List.countP_append, isClickDone]
        omega
  have hC : (processActs e).countP isClickTry ≤ confirmButtonSelectors.length := by
    unfold processActs
    cases hf : e.processFrame with
    | false => simp
    | true =>
      by_cases hcs : ((confirmLoop e confirmButtonSelectors).1 && !e.settleOk) = true
      · simpa [hcs] using hct
      · simp [hcs, List.countP_append, isClickTry]
        have : confirmButtonSelectors.length = 3 := rfl
        omega
  have hD : (challengeTrace e).length ≤ 4 := by
    unfold challengeTrace
    cases hf : e.processFrame with
    | false => simp
    | true =>
      by_cases hcs : ((confirmLoop e confirmButtonSelectors).1 && !e.settleOk) = true
      · simp [hcs]
      · by_cases hc1 : (confirmLoop e confirmButtonSelectors).1 = true <;>
          cases hst : e.settleOk <;>
          simp_all
  have hE : (challengeTrace e).getLast? = some .solved ∨
      (challengeTrace e).getLast? = some .failed := by
    unfold challengeTrace
    cases hf : e.processFrame with
    | false => simp
    | true =>
      by_cases hcs : ((confirmLoop e confirmButtonSelectors).1 && !e.settleOk) = true
      · simp [hcs]
      · by_cases hc1 : (confirmLoop e confirmButtonSelectors).1 = true <;>
          cases hst : e.settleOk <;>
          cases hsv : solveSliderCaptcha e <;>
          simp_all
  exact ⟨hD, hE, hA, hB, hC⟩

/-- With no matching selector, the loop only queries counts and reports no
confirmation. -/
lemma confirmLoop_nomatch (e : PageEnv) :
    ∀ sels : List String, (∀ s ∈ sels, matchesSel e s = false) →
      confirmLoop e sels = (false, sels.map CAct.countQuery) := by
  intro sels
  induction sels with
  | nil => intro _; rfl
  | cons s rest ih =>
    intro hall
    have hs : matchesSel e s = false := hall s (List.mem_cons_self s rest)
    have hrest := ih (fun s' hs' => hall s' (List.mem_cons_of_mem s hs'))
    simp only [confirmLoop]
    unfold matchesSel at hs
    cases hc : e.counts s with
    | none => simp [hrest]
    | some n =>
      rw [hc] at hs
      simp only [decide_eq_false_iff_not] at hs
      simp [if_neg hs, hrest]

/-- The loop clicks the first matching selector whose click succeeds at the
head of the matching region: all earlier candidates are only queried. -/
lemma confirmLoop_first_match (e : PageEnv) :
    ∀ (pre : List String) (s : String) (post : List String),
      (∀ s' ∈ pre, matchesSel e s' = false) →
      matchesSel e s = true → e.clicks s = true →
      confirmLoop e (pre ++ s :: post)
        = (true, pre.map CAct.countQuery
            ++ [.countQuery s, .clickTry s, .clickDone s]) := by
  intro pre
  induction pre with
  | nil =>
    intro s post _ hm hcl
    unfold matchesSel at hm
    simp only [List.nil_append, List.map_nil, confirmLoop]
    cases hc : e.counts s with
    | none => rw [hc] at hm; simp at hm
    | some n =>
      rw [hc] at hm
      simp only [decide_eq_true_eq] at hm
      simp [if_pos hm, hcl]
  | cons p pre ih =>
    intro s post hall hm hcl
    have hp : matchesSel e p = false := hall p (List.mem_cons_self p pre)
    have hrest := ih s post (fun s' hs' => hall s' (List.mem_cons_of_mem p hs')) hm hcl
    simp only [List.cons_append, confirmLoop]
    unfold matchesSel at hp
    cases hc : e.counts p with
    | none => simp [hrest]
    | some n =>
      rw [hc] at hp
      simp only [decide_eq_false_iff_not] at hp
      simp [if_neg hp, hrest]

/-- C7: in the `Detected` state the handler tries the ordered candidate
selectors in sequence and clicks the first one that matches (earlier
candidates are only queried); if no candidate matches, it performs no click
and proceeds directly to the puzzle stage — the solver is still invoked
exactly once and the trace goes `detected → awaitingPuzzle → terminal`,
never failing at the confirmation stage. -/
theorem C7_confirmation_fallback (e : PageEnv) :
    (∀ pre s post,
      confirmButtonSelectors = pre ++ s :: post →
      (∀ s' ∈ pre, matchesSel e s' = false) →
      matchesSel e s = true → e.clicks s = true →
      confirmLoop e confirmButtonSelectors
        = (true, pre.map CAct.countQuery
            ++ [.countQuery s, .clickTry s, .clickDone s])) ∧
    ((∀ s ∈ confirmButtonSelectors, matchesSel e s = false) →
      confirmLoop e confirmButtonSelectors
        = (false, confirmButtonSelectors.map CAct.countQuery) ∧
      (e.processFrame = true →
        challengeTrace e
          = [.detected, .awaitingPuzzle,
             if solveSliderCaptcha e then .solved else .failed] ∧
        (processActs e).count CAct.solverCall = 1)) := by
  constructor
  · intro pre s post hsplit hall hm hcl
    rw [hsplit]
    exact confirmLoop_first_match e pre s post hall hm hcl
  · intro hall
    have hcl := confirmLoop_nomatch e confirmButtonSelectors hall
    refine ⟨hcl, fun hf => ?_⟩
    have hc1 : (confirmLoop e confirmButtonSelectors).1 = false := by rw [hcl]
    constructor
    · unfold challengeTrace
      simp [hf, hc1]
    · unfold processActs
      simp only [hf, hc1]
      simp [List.count_append,
        List.count_eq_zero.mpr (confirmLoop_no_solver e confirmButtonSelectors)]

/-- Page behaviour for the C7 witness: only the third candidate selector
matches, clicks succeed, and the rest of the challenge flow is immaterial. -/
def envConfirm : PageEnv :=
  ⟨true, (fun s => if s = "#btn-interstitial" then some 1 else some 0),
   (fun _ => true), true, true, true, true, true, true, false, false⟩

/-- Witness for C7: with the first two candidates not matching and the third
matching, the loop clicks exactly the third candidate. -/
theorem C7_witness :
    confirmLoop envConfirm confirmButtonSelectors
      = (true, (["button:has-text(\"Confirm\")",
                 "button:has-text(\"Verify\")"]).map CAct.countQuery
          ++ [.countQuery "#btn-interstitial", .clickTry "#btn-interstitial",
              .clickDone "#btn-interstitial"]) :=
  (C7_confirmation_fallback envConfirm).1
    ["button:has-text(\"Confirm\")", "button:has-text(\"Verify\")"]
    "#btn-interstitial" [] rfl (by decide) (by decide) rfl

/-- C8: once the drag replay and the bounded post-drag wait are reached
(frame, container, crops, slider handle and drag/navigation all succeeded),
the invocation returns `false` exactly when the challenge container is still
visible and `true` exactly when it is gone; at the state-machine level the
terminal state is `failed` exactly when the container is still visible and
`solved` exactly when it is gone — the only two outcomes. -/
theorem C8_verification_outcome (e : PageEnv)
    (hf : e.solveFrame = true) (hc : e.container = true) (hp : e.prepOk = true)
    (hs : e.sliderHandle = true) (hd : e.dragNavOk = true) :
    (solveSliderCaptcha e = false ↔ isCaptchaVisibleAfter e = true) ∧
    (solveSliderCaptcha e = true ↔ isCaptchaVisibleAfter e = false) ∧
    (e.processFrame = true → e.settleOk = true →
      ((challengeTrace e).getLast? = some .failed ↔ isCaptchaVisibleAfter e = true) ∧
      ((challengeTrace e).getLast? = some .solved ↔ isCaptchaVisibleAfter e = false)) := by
  have hsv : solveSliderCaptcha e = !isCaptchaVisibleAfter e := by
    unfold solveSliderCaptcha solveSliderBody
    simp [hf, hc, hp, hs, hd]
  refine ⟨?_, ?_, ?_⟩
  · rw [hsv]; cases hvis : isCaptchaVisibleAfter e <;> simp
  · rw [hsv]; cases hvis : isCaptchaVisibleAfter e <;> simp
  · intro hpf hst
    unfold challengeTrace
    have hcs : ((confirmLoop e confirmButtonSelectors).1 && !e.settleOk) = false := by
      simp [hst]
    cases hvis : isCaptchaVisibleAfter e <;>
      rw [hvis] at hsv <;>
      by_cases hc1 : (confirmLoop e confirmButtonSelectors).1 = true <;>
      simp_all

/-- Page behaviour for the C8 witness: the whole solve path succeeds and the
container is gone afterwards. -/
def envVerify : PageEnv :=
  ⟨true, (fun _ => some 0), (fun _ => true), true, true, true, true, true,
   true, true, false⟩

/-- Witness for C8 at a concrete run whose container disappears after the
drag. -/
theorem C8_witness :
    (solveSliderCaptcha envVerify = false ↔ isCaptchaVisibleAfter envVerify = true) ∧
    (solveSliderCaptcha envVerify = true ↔ isCaptchaVisibleAfter envVerify = false) ∧
    (envVerify.processFrame = true → envVerify.settleOk = true →
      ((challengeTrace envVerify).getLast? = some .failed ↔
        isCaptchaVisibleAfter envVerify = true) ∧
      ((challengeTrace envVerify).getLast? = some .solved ↔
        isCaptchaVisibleAfter envVerify = false)) :=
  C8_verification_outcome envVerify rfl rfl rfl rfl rfl

/-- C10: every internal exception of the challenge handlers (crop failure,
drag or navigation failure, settle-wait failure) is caught and becomes the
boolean `false`; missing frame, container or slider handle return `false`
directly; no exception escapes (the wrapped functions are total and
boolean-valued); and `true` is returned only when the challenge container is
absent after the drag. -/
theorem C10_no_exception_escapes (e : PageEnv) :
    (∀ err, solveSliderBody e = .error err → solveSliderCaptcha e = false) ∧
    (∀ err, handleBody e = .error err → handleFullCaptchaProcess e = false) ∧
    (solveSliderCaptcha e = true → isCaptchaVisibleAfter e = false) ∧
    (handleFullCaptchaProcess e = true → isCaptchaVisibleAfter e = false) ∧
    (handleFullCaptchaProcess e = true ↔
      e.processFrame = true ∧
      ¬((confirmLoop e confirmButtonSelectors).1 = true ∧ e.settleOk = false) ∧
      solveSliderCaptcha e = true) := by
  have hsolve : solveSliderCaptcha e = true → isCaptchaVisibleAfter e = false := by
    intro ht
    unfold solveSliderCaptcha solveSliderBody at ht
    cases h1 : e.solveFrame <;> rw [h1] at ht <;> simp at ht
    cases h2 : e.container <;> rw [h2] at ht <;> simp at ht
    cases h3 : e.prepOk <;> rw [h3] at ht <;> simp at ht
    cases h4 : e.sliderHandle <;> rw [h4] at ht <;> simp at ht
    cases h5 : e.dragNavOk <;> rw [h5] at ht <;> simp at ht
    cases hvis : isCaptchaVisibleAfter e
    · rfl
    · rw [hvis] at ht; simp at ht
  have hiff : handleFullCaptchaProcess e = true ↔
      e.processFrame = true ∧
      ¬((confirmLoop e confirmButtonSelectors).1 = true ∧ e.settleOk = false) ∧
      solveSliderCaptcha e = true := by
    unfold handleFullCaptchaProcess handleBody
    cases hf : e.processFrame <;>
      by_cases hc1 : (confirmLoop e confirmButtonSelectors).1 = true <;>
      cases hst : e.settleOk <;>
      simp_all
  refine ⟨?_, ?_, hsolve, ?_, hiff⟩
  · intro err herr
    unfold solveSliderCaptcha
    rw [herr]
  · intro err herr
    unfold handleFullCaptchaProcess
    rw [herr]
  · intro ht
    exact hsolve (hiff.mp ht).2.2

/-- Page behaviour whose crop step throws: `solveSliderBody` raises
`geometry`. -/
def envErr : PageEnv :=
  ⟨true, (fun _ => some 0), (fun _ => true), true, true, true, false, true,
   true, true, true⟩

/-- Page behaviour whose settle wait after a confirmed click throws:
`handleBody` raises `settle`. -/
def envErr2 : PageEnv :=
  ⟨true, (fun _ => some 1), (fun _ => true), false, true, true, true, true,
   true, true, true⟩

/-- Witness for C10: both handlers turn concrete thrown exceptions into
`false`. -/
theorem C10_witness :
    solveSliderCaptcha envErr = false ∧ handleFullCaptchaProcess envErr2 = false :=
  ⟨(C10_no_exception_escapes envErr).1 .geometry rfl,
   (C10_no_exception_escapes envErr2).2.1 .settle rfl⟩

/-! ## Harvest loop, diagnostics and archive index

The per-target loop of the harvester (part_004, lines 153-282): the whole
body — including `puppeteerExtra.launch` — sits inside the per-target
`try { ... } catch(e) { log } finally { close }`; after the loop the script
runs `process.exit(0)` (line 286).  The only non-zero exit is the startup
check for `CHROME_USER_DATA_DIR` (line 105).  Each iteration is summarised by
a scenario (which, if any, awaited step threw) and by the externally visible
effects it emits, in order. -/

/-- What happened inside one target's `try` body. -/
inductive TargetScenario where
  | launchFail
  | navFail
  | blocked
  | ok
deriving DecidableEq, Repr

/-- One input target plus the timestamp string the iteration uses for
filenames (the `toISOString` values, already colon/dot-sanitized). -/
structure Target where
  id : String
  url : String
  host : String
  ts : String
  scenario : TargetScenario
deriving DecidableEq, Repr

/-- `url.replace(/[^a-zA-Z0-9]/g, '_').slice(0, 100)`. -/
def sanitizeUrl (u : String) : String :=
  ((u.toList.map (fun c => if c.isAlphanum then c else '_')).take 100).asString

/-- One row of `archive/archive_index.csv` (line 270). -/
structure IndexRow where
  id : String
  ts : String
  host : String
  url : String
  typ : String
  pth : String
deriving DecidableEq, Repr

/-- The row appended for a successfully archived target. -/
def archiveRow (t : Target) : IndexRow :=
  ⟨t.id, t.ts, t.host, t.url, "html",
   "archive/pages/" ++ t.ts ++ "_" ++ sanitizeUrl t.url ++ ".html"⟩

/-- The externally visible effects of one iteration. -/
inductive Effect where
  | failShot (name : String)
  | failHtml (name : String)
  | logError (reason : String)
  | archiveHtml (name : String)
  | indexAppend (r : IndexRow)
  | logArchived
deriving DecidableEq, Repr

/-- The effects of one iteration, in program order.  A launch or navigation
failure is caught and only logged (the reason string abstracts `e.message`).
A blocked page first writes the `FAIL_`-prefixed screenshot and markup
(lines 215-220), then throws, and the catch logs the thrown reason.  A
successful target writes the archive file, appends the index row and logs. -/
def processTarget (t : Target) : List Effect :=
  match t.scenario with
  | .launchFail => [.logError "launch"]
  | .navFail => [.logError "navigation"]
  | .blocked =>
      [.failShot ("FAIL_" ++ t.ts ++ "_" ++ sanitizeUrl t.url ++ ".png"),
       .failHtml ("FAIL_" ++ t.ts ++ "_" ++ sanitizeUrl t.url ++ ".html"),
       .logError "Blocked by CAPTCHA/security page. Debug info saved to logs/failed_harvest/"]
  | .ok =>
      [.archiveHtml ("archive/pages/" ++ t.ts ++ "_" ++ sanitizeUrl t.url ++ ".html"),
       .indexAppend (archiveRow t),
       .logArchived]

/-- The loop over all targets: every iteration completes (its body is wrapped
in `try/catch`), so the loop processes each target exactly once. -/
def harvestLoop : List Target → Nat × List Effect
  | [] => (0, [])
  | t :: ts =>
      let r := harvestLoop ts
      (r.1 + 1, processTarget t ++ r.2)

/-- The whole run's result. -/
structure RunResult where
  exitCode : Nat
  processed : Nat
  effects : List Effect
deriving DecidableEq, Repr

/-- The run: the startup config check exits 1 before processing anything
(line 105); otherwise the loop runs to completion and the script executes
`process.exit(0)` (line 286) whatever happened per target. -/
def harvestRun (configOk : Bool) (targets : List Target) : RunResult :=
  if configOk then
    let r := harvestLoop targets
    ⟨0, r.1, r.2⟩
  else ⟨1, 0, []⟩

lemma harvestLoop_processed : ∀ ts : List Target, (harvestLoop ts).1 = ts.length := by
  intro ts
  induction ts with
  | nil => rfl
  | cons t ts ih => simp [harvestLoop, ih]

/-- C4 counterexample: a browser-launch failure on the first target does not
abort the run — the second target is still processed and the exit status is
0, not non-zero. -/
theorem C4_counterexample :
    (harvestRun true
      [⟨"1", "http://a.com/x", "a.com", "ts1", .launchFail⟩,
       ⟨"2", "http://a.com/y", "a.com", "ts2", .ok⟩]).exitCode = 0 ∧
    (harvestRun true
      [⟨"1", "http://a.com/x", "a.com", "ts1", .launchFail⟩,
       ⟨"2", "http://a.com/y", "a.com", "ts2", .ok⟩]).processed = 2 := by
  decide

/-- C4 (amended): a browser-launch failure is caught at the per-target
boundary like any other per-target failure: the loop continues, the run
processes every input target and exits with status 0.  The only non-zero
exit is the startup configuration check (missing `CHROME_USER_DATA_DIR`),
which exits 1 before any target is processed. -/
theorem C4_exit_behavior (targets : List Target) :
    (harvestRun true targets).exitCode = 0 ∧
    (harvestRun true targets).processed = targets.length ∧
    (harvestRun false targets).exitCode = 1 ∧
    (harvestRun false targets).processed = 0 := by
  refine ⟨rfl, ?_, rfl, rfl⟩
  simp [harvestRun, harvestLoop_processed]

/-- Diagnostic artifacts among the effects. -/
def isFailArtifact : Effect → Bool
  | .failShot _ => true
  | .failHtml _ => true
  | _ => false

/-- C9 (amended): per-target errors are caught at the per-target boundary and
never abort the run, but only the blocked-page branch produces diagnostic
artifacts (a `FAIL_`-prefixed timestamp+sanitized-URL screenshot and markup
file plus a logged reason); a navigation failure is only logged with a
reason — no screenshot or markup file is written for it. -/
theorem C9_per_target_diagnostics (targets : List Target) (t : Target) :
    (harvestRun true targets).processed = targets.length ∧
    (t.scenario = .blocked →
      processTarget t
        = [.failShot ("FAIL_" ++ t.ts ++ "_" ++ sanitizeUrl t.url ++ ".png"),
           .failHtml ("FAIL_" ++ t.ts ++ "_" ++ sanitizeUrl t.url ++ ".html"),
           .logError "Blocked by CAPTCHA/security page. Debug info saved to logs/failed_harvest/"]) ∧
    (t.scenario = .navFail →
      (processTarget t).countP isFailArtifact = 0 ∧
      Effect.logError "navigation" ∈ processTarget t) := by
  refine ⟨?_, ?_, ?_⟩
  · simp [harvestRun, harvestLoop_processed]
  · intro h; simp [processTarget, h]
  · intro h; simp [processTarget, h, isFailArtifact]

/-- Concrete blocked target for the C9 witness. -/
def tBlocked : Target := ⟨"2", "http://b.com/y", "b.com", "ts3", .blocked⟩

/-- Witness for C9: the blocked target yields exactly the `FAIL_` screenshot,
`FAIL_` markup and reason, and a one-target run processes it without
aborting. -/
theorem C9_witness :
    (harvestRun true [tBlocked]).processed = [tBlocked].length ∧
    processTarget tBlocked
      = [.failShot ("FAIL_" ++ tBlocked.ts ++ "_" ++ sanitizeUrl tBlocked.url ++ ".png"),
         .failHtml ("FAIL_" ++ tBlocked.ts ++ "_" ++ sanitizeUrl tBlocked.url ++ ".html"),
         .logError "Blocked by CAPTCHA/security page. Debug info saved to logs/failed_harvest/"] :=
  ⟨(C9_per_target_diagnostics [tBlocked] tBlocked).1,
   (C9_per_target_diagnostics [tBlocked] tBlocked).2.1 rfl⟩

/-- Concrete navigation-failure target for the C9 counterexample. -/
def tNav : Target := ⟨"3", "http://c.com/z", "c.com", "ts4", .navFail⟩

/-- C9 counterexample: a navigation failure is a per-target error, yet its
effects contain no screenshot and no markup file — only a logged reason — so
not every per-target error is converted into a diagnostic record with
screenshot and markup artifacts. -/
theorem C9_counterexample :
    processTarget tNav = [.logError "navigation"] ∧
    (processTarget tNav).countP isFailArtifact = 0 := by
  decide

/-! ### Archive index -/

/-- The two operations the harvester performs on the index file: the startup
initialisation (line 144: create with header only when the file does not
exist, never touch an existing file) and the per-success append (line 271).
The file is `none` when absent; an existing file is its list of data rows
(the header is implicit in creation). -/
inductive IdxOp where
  | init
  | append (r : IndexRow)
deriving DecidableEq, Repr

/-- Effect of one operation on the index file. -/
def idxStep (f : Option (List IndexRow)) : IdxOp → Option (List IndexRow)
  | .init =>
      match f with
      | none => some []
      | some rows => some rows
  | .append r => some (f.getD [] ++ [r])

/-- A sequence of index operations. -/
def idxRun (f : Option (List IndexRow)) (ops : List IdxOp) : Option (List IndexRow) :=
  ops.foldl idxStep f

/-- The index operations of one run: initialise once, then append one row
per successfully archived target, in order. -/
def targetOps : List Target → List IdxOp
  | [] => []
  | t :: ts =>
      (match t.scenario with
       | .ok => [IdxOp.append (archiveRow t)]
       | _ => []) ++ targetOps ts

/-- A full run's index operations. -/
def runOps (targets : List Target) : List IdxOp := IdxOp.init :: targetOps targets

/-- Prior rows are never rewritten: any sequence of index operations only
extends an existing file. -/
lemma idxRun_extends : ∀ (ops : List IdxOp) (rows : List IndexRow),
    ∃ added, idxRun (some rows) ops = some (rows ++ added) := by
  intro ops
  induction ops with
  | nil => intro rows; exact ⟨[], by simp [idxRun]⟩
  | cons op ops ih =>
    intro rows
    cases op with
    | init =>
      obtain ⟨added, hadd⟩ := ih rows
      exact ⟨added, hadd⟩
    | append r =>
      obtain ⟨added, hadd⟩ := ih (rows ++ [r])
      refine ⟨[r] ++ added, ?_⟩
      show idxRun (idxStep (some rows) (.append r)) ops = _
      simp only [idxStep, Option.getD_some]
      rw [hadd, List.append_assoc]

/-- C5 (amended): the archive index is strictly appended to — a run started
on an existing file leaves the prior rows as a prefix and never rewrites or
truncates them, and a run started with no file creates it (header only) and
then appends.  The writer performs no duplicate detection, so re-running on
an already-archived target appends a second row with the same id. -/
theorem C5_index_append_only (targets : List Target) :
    (∀ rows : List IndexRow,
      ∃ added, idxRun (some rows) (runOps targets) = some (rows ++ added)) ∧
    (∃ added, idxRun none (runOps targets) = some added) := by
  constructor
  · intro rows
    exact idxRun_extends (runOps targets) rows
  · obtain ⟨added, hadd⟩ := idxRun_extends (targetOps targets) []
    refine ⟨added, ?_⟩
    show idxRun (idxStep none .init) (targetOps targets) = some added
    simpa [idxStep] using hadd

/-- Concrete archived target, and the same target archived again by a
re-run (same id from `urls.csv`, later timestamp). -/
def tOk1 : Target := ⟨"1", "http://a.com/x", "a.com", "ts1", .ok⟩

/-- The same target on a re-run. -/
def tOk2 : Target := ⟨"1", "http://a.com/x", "a.com", "ts2", .ok⟩

/-- C5 counterexample: re-running the harvester on a target already present
in the index appends a second row with the same id — the writer performs no
duplicate detection, so two index rows carry id "1". -/
theorem C5_counterexample :
    ((idxRun none (runOps [tOk1] ++ runOps [tOk2])).getD []).map IndexRow.id
      = ["1", "1"] ∧
    ¬ (((idxRun none (runOps [tOk1] ++ runOps [tOk2])).getD []).map IndexRow.id).Nodup := by
  decide

end WebHarvester
